import Mathlib

/-!
Verification development for the historical-term-analyzer pipeline
(`historical_term_analyzer.py`).

The Python code is shallowly embedded: pure text processing becomes Lean
functions over `List Char` / `String`, the processor's term cache and the
HTTP client's counters become explicit state records, network phases become
outcome parameters (`Except`/`Option` traces), and Python dictionaries of
counts become functions `String → Nat` (pointwise counting, which is the
semantics of `Counter`/`defaultdict(int)` merging).

Unicode notes for the embedding: Python's `str.lower`/`str.strip`/`\s` are
modelled on their ASCII behaviour, and a codepoint above 127 is treated as a
regex word character (an approximation of Python's Unicode `\w`); ASCII
letters, digits, punctuation and whitespace — the parts the analyzed claims
depend on — are modelled exactly.  Float ratio comparisons `x / n > 0.1` and
`x / n < 0.1` are modelled by the exact comparisons `10 * x > n` and
`10 * x < n`; for the denominators that can occur here (at most 1000) the
two semantics coincide.
-/

namespace HTA

/-- ASCII punctuation, exactly Python's `string.punctuation`:
codepoints 33–47, 58–64, 91–96 and 123–126. -/
def isPyPunct (c : Char) : Bool :=
  let n := c.toNat
  (33 ≤ n && n ≤ 47) || (58 ≤ n && n ≤ 64) || (91 ≤ n && n ≤ 96) || (123 ≤ n && n ≤ 126)

/-- Whitespace as matched by the regex `\s` (ASCII part):
space, tab, newline, carriage return, vertical tab, form feed. -/
def isPySpace (c : Char) : Bool :=
  c = ' ' || c = '\t' || c = '\n' || c = '\r' || c.toNat = 11 || c.toNat = 12

/-- Word characters for the regex `\b` boundary / `\w` class: ASCII
alphanumerics, underscore, and (as an approximation of Unicode word
characters) any codepoint above 127. -/
def isWordChar (c : Char) : Bool :=
  c.isAlpha || c.isDigit || c = '_' || 127 < c.toNat

/-- Collapse every maximal run of `\s` whitespace to a single space
(the substitution `whitespace_pattern.sub(' ', text)`).  The flag records
whether the previous character was whitespace. -/
def collapseWsAux : List Char → Bool → List Char
  | [], _ => []
  | c :: cs, inSpace =>
    if isPySpace c then
      if inSpace then collapseWsAux cs true else ' ' :: collapseWsAux cs true
    else c :: collapseWsAux cs false

def collapseWs (l : List Char) : List Char := collapseWsAux l false

/-- Python `str.strip()` on the ASCII whitespace model. -/
def stripChars (l : List Char) : List Char :=
  ((l.dropWhile isPySpace).reverse.dropWhile isPySpace).reverse

/-- `TextProcessor._clean_and_normalize_text`: lowercase, replace every
punctuation character by a space, collapse whitespace runs, strip.  The
`lru_cache` decorating the Python method memoizes a deterministic function
and is therefore semantically transparent. -/
def cleanAndNormalizeChars (text : List Char) : List Char :=
  if text = [] then []
  else
    let lowered := text.map Char.toLower
    let depunct := lowered.map (fun c => if isPyPunct c then ' ' else c)
    stripChars (collapseWs depunct)

/-- Maximal runs of word characters, accumulator-based. -/
def wordRunsAux : List Char → List Char → List (List Char)
  | [], acc => if acc = [] then [] else [acc.reverse]
  | c :: cs, acc =>
    if isWordChar c then wordRunsAux cs (c :: acc)
    else if acc = [] then wordRunsAux cs [] else acc.reverse :: wordRunsAux cs []

/-- Maximal runs of word characters of a character list. -/
def wordRuns (l : List Char) : List (List Char) := wordRunsAux l []

/-- `re.findall(r'\b[a-zA-Z]{2,}\b', s)`: a maximal word-character run
matches iff it consists only of ASCII letters and has length ≥ 2 (a letter
run adjacent to a digit, underscore or non-ASCII word character has no `\b`
boundary there and is not matched). -/
def findWords2 (l : List Char) : List (List Char) :=
  (wordRuns l).filter (fun r => r.all Char.isAlpha && decide (2 ≤ r.length))

/-- `re.findall(r'\b[a-zA-Z]+\b', s)`: same with length ≥ 1. -/
def findWords1 (l : List Char) : List (List Char) :=
  (wordRuns l).filter (fun r => r.all Char.isAlpha)

/-- `TextProcessor.STOP_WORDS`, transcribed element by element from the
source, in source order.  The Python literal joins `'not'` and `'page'` by
implicit string concatenation (the comma between them is missing), so the
set contains the single element `"notpage"` and neither `"not"` nor
`"page"`.  Duplicates of the Python literal are kept; only membership
matters. -/
def STOP_WORDS : List String := [
  "a", "an", "and", "are", "as", "at", "be", "by", "for", "from", "has",
  "he", "in", "is", "it", "its", "of", "on", "that", "the", "to", "was",
  "will", "with", "this", "but", "they", "have", "had", "what", "said",
  "each", "which", "do", "how", "their", "if", "up", "out", "many",
  "then", "them", "these", "so", "some", "her", "would", "make", "like",
  "into", "him", "time", "two", "more", "very", "when", "come", "may",
  "only", "think", "now", "you", "his", "your", "here", "me", "should",
  "could", "been", "than", "who", "just", "where", "most", "us", "much",
  "go", "being", "over", "such", "our", "made", "can", "get", "am", "way",
  "too", "any", "day", "same", "right", "under", "while", "might",
  "old", "year", "off", "since", "against", "back", "take", "part", "used",
  "use", "during", "without", "again", "around", "however", "why", "turn",
  "put", "end", "does", "another", "well", "must", "even", "give",
  "means", "different", "move", "did", "no", "my", "know", "first",
  "down", "side", "find", "own", "found", "still", "between", "keep",
  "never", "let", "saw", "far", "left", "late", "run", "don", "press",
  "close", "night", "real", "few", "took", "once", "hear", "cut", "sure",
  "watch", "seem", "together", "next", "got", "walk", "always", "those",
  "both", "often", "until", "care", "second", "enough", "ready", "above",
  "ever", "though", "feel", "talk", "soon", "direct", "leave", "told",
  "knew", "pass", "top", "heard", "best", "hour", "better", "hundred",
  "five", "remember", "step", "early", "hold", "reach", "fast", "listen",
  "six", "less", "ten", "simple", "several", "toward", "lay", "pattern",
  "slow", "serve", "appear", "pull", "cold", "notice", "fine", "certain",
  "fly", "fall", "lead", "cry", "dark", "note", "wait", "plan", "rest",
  "able", "done", "stood", "front", "week", "gave", "develop", "warm",
  "free", "minute", "special", "behind", "clear", "produce", "nothing",
  "stay", "full", "force", "decide", "deep", "busy", "record", "common",
  "possible", "dry", "ago", "ran", "check", "hot", "miss", "brought",
  "heat", "yes", "fill", "among", "new", "all", "notpage",
  "pages", "site", "website", "web", "home", "click", "link",
  "links", "search", "about", "contact", "help", "information", "info",
  "copyright", "rights", "reserved", "terms", "privacy", "policy",
  "service", "services", "content", "text", "article", "news", "date",
  "today", "yesterday", "tomorrow", "monday", "tuesday", "wednesday",
  "thursday", "friday", "saturday", "sunday", "january", "february",
  "march", "april", "june", "july", "august", "september", "october",
  "november", "december", "email", "mail", "phone", "address", "name",
  "first", "last", "middle", "title", "description", "view", "views",
  "read", "reading", "write", "written", "author", "posted", "post",
  "comment", "comments", "reply", "replies", "submit", "send", "login",
  "register", "sign", "password", "username", "user", "users", "member",
  "members", "join", "follow", "share", "print", "save", "download",
  "one", "two", "three", "four", "five", "six", "seven", "eight", "nine",
  "ten", "eleven", "twelve", "thirteen", "fourteen", "fifteen", "sixteen",
  "seventeen", "eighteen", "nineteen", "twenty", "thirty", "forty", "fifty",
  "sixty", "seventy", "eighty", "ninety", "hundred", "thousand", "million",
  "billion", "first", "second", "third", "fourth", "fifth", "last",
  "html", "http", "https", "www", "com", "org", "net", "edu", "gov",
  "jpg", "gif", "png", "pdf", "doc", "docx", "txt", "css", "javascript",
  "script", "image", "images", "photo", "photos", "video", "videos",
  "file", "files", "folder", "folders", "document", "documents"]

/-- The pure (cache-free) semantics of `TextProcessor.extract_terms`:
clean and normalize, find the `\b[a-zA-Z]{2,}\b` tokens, drop stop words
and tokens shorter than 2 characters. -/
def extractTermsPure (text : String) : List String :=
  let cleaned := cleanAndNormalizeChars text.toList
  let words := (findWords2 cleaned).map (fun r => String.mk r)
  words.filter (fun w => !(STOP_WORDS.contains w) && decide (2 ≤ w.length))

/-- The mutable state of a `TextProcessor`: the term cache and its hit/miss
counters.  The Python cache is keyed by `hash(text[:1000])`; string hashing
is process-randomized, but it is a deterministic function of the first 1000
characters within a run, so the cache key is modelled as that prefix itself
(texts agreeing on their first 1000 characters collide, which is the
deterministic collision the code guarantees). -/
structure ProcessorState where
  termCache : List (String × List String)
  cacheHits : Nat
  cacheMisses : Nat
deriving DecidableEq

/-- The state of a freshly constructed `TextProcessor`. -/
def initProcessor : ProcessorState := ⟨[], 0, 0⟩

/-- `TextProcessor.extract_terms`, with the cache explicit: empty text short
circuits; a cache hit returns the cached list; a miss computes the terms
and inserts them only while the cache holds fewer than 500 entries. -/
def extract_terms (text : String) (s : ProcessorState) :
    List String × ProcessorState :=
  if text = "" then ([], s)
  else
    match s.termCache.lookup (String.mk (text.data.take 1000)) with
    | some terms => (terms, { s with cacheHits := s.cacheHits + 1 })
    | none =>
      if s.termCache.length < 500 then
        (extractTermsPure text,
          { s with
              termCache :=
                (String.mk (text.data.take 1000), extractTermsPure text) :: s.termCache
              cacheMisses := s.cacheMisses + 1 })
      else
        (extractTermsPure text, { s with cacheMisses := s.cacheMisses + 1 })

/-- The `Document` fields the analyzed claims depend on. -/
structure Document where
  identifier : String
  text_content : String
deriving DecidableEq

/-- Occurrence counting: the mapping view of `Counter(terms)`. -/
def countTerms (terms : List String) : String → Nat :=
  fun t => terms.count t

/-- The cache-transparent counting core of
`TextProcessor._process_document_batch`: the count mapping of the pure
extractions of the batch's documents with text content.  This is what one
batch computes when every `extract_terms` call returns the pure extraction
of its argument (see `KeyCoherent`); the faithful, cache-threading
embedding of the method is `processDocumentBatchRun`. -/
def pureBatchFreq (docs : List Document) : String → Nat :=
  countTerms ((docs.filter (fun d => d.text_content ≠ "")).flatMap
    (fun d => extractTermsPure d.text_content))

/-- The cache-transparent counting core of
`TextProcessor._calculate_frequencies_sequential`: occurrence counts of the
concatenated pure extractions.  The faithful, cache-threading embedding of
the method is `calcFreqSequentialRun`. -/
def pureSeqFreq (docs : List Document) : String → Nat :=
  countTerms (docs.flatMap (fun d => extractTermsPure d.text_content))

/-- The extraction loop of `TextProcessor._process_document_batch` with the
shared term cache threaded through: each document of the batch with text
content (`if hasattr(doc, 'text_content') and doc.text_content`) goes
through the cached `extract_terms` in batch order; the concatenation of the
extracted term lists is what the method's `defaultdict(int)` loop counts. -/
def batchTermsCached : List Document → ProcessorState → List String × ProcessorState
  | [], s => ([], s)
  | d :: ds, s =>
    if d.text_content ≠ "" then
      let p1 := extract_terms d.text_content s
      let p2 := batchTermsCached ds p1.2
      (p1.1 ++ p2.1, p2.2)
    else batchTermsCached ds s

/-- `TextProcessor._process_document_batch`: the partial term-to-count
mapping of one batch, together with the processor state the batch leaves
behind. -/
def processDocumentBatchRun (docs : List Document) (s : ProcessorState) :
    (String → Nat) × ProcessorState :=
  let p := batchTermsCached docs s
  (countTerms p.1, p.2)

/-- The extraction loop of
`TextProcessor._calculate_frequencies_sequential` with the shared cache
threaded: every document (the caller `calculate_frequencies` has already
filtered for content) goes through the cached `extract_terms` in order and
the term lists are concatenated into `all_terms`. -/
def seqTermsCached : List Document → ProcessorState → List String × ProcessorState
  | [], s => ([], s)
  | d :: ds, s =>
    let p1 := extract_terms d.text_content s
    let p2 := seqTermsCached ds p1.2
    (p1.1 ++ p2.1, p2.2)

/-- `TextProcessor._calculate_frequencies_sequential`: the
`Counter(all_terms)` mapping, together with the processor state left
behind. -/
def calcFreqSequentialRun (docs : List Document) (s : ProcessorState) :
    (String → Nat) × ProcessorState :=
  let p := seqTermsCached docs s
  (countTerms p.1, p.2)

/-- Merging partial frequency mappings by summing counts per term
(the `combined_frequencies[term] += freq` loop over completed batches). -/
def mergeFreqMaps (ms : List (String → Nat)) : String → Nat :=
  fun t => (ms.map (fun m => m t)).sum

/-- Helper for `chunkList`: `acc` is the current chunk (reversed) and `k`
the remaining capacity of the current chunk. -/
def chunkAux (n : Nat) : List Document → List Document → Nat → List (List Document)
  | [], acc, _ => if acc.isEmpty then [] else [acc.reverse]
  | x :: xs, acc, k =>
    if k ≤ 1 then (x :: acc).reverse :: chunkAux n xs [] n
    else chunkAux n xs (x :: acc) (k - 1)

/-- The batch split `documents[i:i+batch_size] for i in range(0, len, batch_size)`:
consecutive chunks of `n` documents, the last chunk possibly shorter
(`n ≥ 1` at every use site, matching the `max(1, ...)` batch size). -/
def chunkList (n : Nat) (l : List Document) : List (List Document) :=
  chunkAux n l [] n

/-- `TextProcessor._calculate_frequencies_parallel` batch construction:
`batch_size = max(1, len(documents) // max_workers)`. -/
def makeBatches (maxWorkers : Nat) (docs : List Document) : List (List Document) :=
  chunkList (max 1 (docs.length / maxWorkers)) docs

/-- One legal execution of `TextProcessor._calculate_frequencies_parallel`:
the worker threads of the pool all call `self._process_document_batch`, so
they share one term cache; the CPython interpreter serializes their
execution, and the scheduler may run the submitted batch tasks to
completion in any order.  An execution is therefore modelled by the batch
list in its scheduled order, processed serially against the shared
processor state, with the partial mappings merged by summing counts per
term (the `as_completed` collection loop — summation per term is
independent of the collection order).  Finer-grained interleavings of the
threads exist and are not modelled; one legal execution suffices to settle
what the pool can return. -/
def parallelRunCached : List (List Document) → ProcessorState → (String → Nat) × ProcessorState
  | [], s => (fun _ => 0, s)
  | b :: bs, s =>
    let p1 := processDocumentBatchRun b s
    let p2 := parallelRunCached bs p1.2
    (fun t => p1.1 t + p2.1 t, p2.2)

/-- The cache key of a text: its first 1000 characters (see
`ProcessorState`). -/
def cacheKeyOf (text : String) : String := String.mk (text.data.take 1000)

/-- A family of texts is key-coherent when any two that share a cache key
also share their pure extraction — in particular when no two distinct texts
agree on their first 1000 characters.  Under this condition the shared term
cache is semantically transparent. -/
def KeyCoherent (texts : List String) : Prop :=
  ∀ t1 ∈ texts, ∀ t2 ∈ texts,
    cacheKeyOf t1 = cacheKeyOf t2 → extractTermsPure t1 = extractTermsPure t2

/-- Every cache entry is the pure extraction of some text of the family,
stored under that text's key. -/
def CachePureUnder (texts : List String) (s : ProcessorState) : Prop :=
  ∀ k ts, (k, ts) ∈ s.termCache →
    ∃ t, t ∈ texts ∧ t ≠ "" ∧ cacheKeyOf t = k ∧ extractTermsPure t = ts

/-- Python `str.isdigit` restricted to ASCII: nonempty and all digits. -/
def pyIsDigit (s : String) : Bool :=
  !s.toList.isEmpty && s.toList.all Char.isDigit

/-- Stable descending insertion by count: `x` is placed before the first
element whose count is at most `x`'s, so among equal counts earlier input
entries stay first. -/
def insertByCountDesc (x : String × Nat) : List (String × Nat) → List (String × Nat)
  | [] => [x]
  | y :: ys => if y.2 ≤ x.2 then x :: y :: ys else y :: insertByCountDesc x ys

/-- Stable sort by count, descending — the semantics of
`Counter(...).most_common` (equivalent to `sorted(..., key=count, reverse=True)`,
which is stable, ties keeping first-seen order). -/
def sortByCountDesc : List (String × Nat) → List (String × Nat)
  | [] => []
  | x :: xs => insertByCountDesc x (sortByCountDesc xs)

/-- `TextProcessor.get_top_terms`: keep the entries whose term has at least
3 characters, is not purely numeric and has count above 1, then return the
`top_n` highest-count entries in stable descending order.  A Python dict is
modelled as an association list in insertion order. -/
def get_top_terms (frequencies : List (String × Nat)) (top_n : Nat) :
    List (String × Nat) :=
  let filtered := frequencies.filter
    (fun p => decide (3 ≤ p.1.length) && !(pyIsDigit p.1) && decide (1 < p.2))
  (sortByCountDesc filtered).take top_n

/-- The fixed English function-word set of
`InternetArchiveClient.validate_english_content`, transcribed from the
source. -/
def englishWords : List String := [
  "the", "and", "or", "but", "in", "on", "at", "to", "for", "of", "with",
  "by", "from", "up", "about", "into", "through", "during", "before",
  "after", "above", "below", "between", "among", "this", "that", "these",
  "those", "i", "you", "he", "she", "it", "we", "they", "what", "which",
  "who", "when", "where", "why", "how", "is", "are", "was", "were", "be",
  "have", "has", "had", "do", "does", "did", "will", "would", "could",
  "should", "may", "might", "must", "can", "a", "an", "br", "com", "www", "rol"]

/-- The lowercased 1000-character sample taken by the validator. -/
def englishSample (text : String) : List Char :=
  (text.toList.take 1000).map Char.toLower

/-- The alphabetic tokens `re.findall(r'\b[a-zA-Z]+\b', sample)` of the
sample. -/
def sampleTokens (text : String) : List String :=
  (findWords1 (englishSample text)).map (fun r => String.mk r)

/-- How many sample tokens belong to the English word set
(`word.lower() in english_words`). -/
def englishCount (text : String) : Nat :=
  ((sampleTokens text).filter
    (fun w => englishWords.contains (String.mk (w.toList.map Char.toLower)))).length

/-- How many sample characters match `[^\x00-\x7F]`. -/
def nonLatinCount (text : String) : Nat :=
  ((englishSample text).filter (fun c => 127 < c.toNat)).length

/-- `InternetArchiveClient.validate_english_content`: reject when the
stripped text is under 50 characters; sample the first 1000 characters,
lowercased; reject when fewer than 10 alphabetic tokens are found; accept
iff the English-word ratio exceeds 0.1 and the non-ASCII character ratio is
below 0.1 (ratios compared exactly by cross multiplication). -/
def validate_english_content (text : String) : Bool :=
  if (stripChars text.toList).length < 50 then false
  else
    let sample := englishSample text
    let words := sampleTokens text
    if words.length < 10 then false
    else
      decide (words.length < 10 * englishCount text) &&
      decide (10 * nonLatinCount text < sample.length)

/-- The request statistics of an `InternetArchiveClient`
(`total_requests` and `failed_requests`). -/
structure ClientState where
  totalRequests : Nat
  failedRequests : Nat
deriving DecidableEq

/-- One observable outcome of a `session.get` call: a status-coded response
with a body, a timeout, or a connection error. -/
inductive HttpOutcome where
  | status (code : Nat) (body : String)
  | timeout
  | connError
deriving DecidableEq

/-- `InternetArchiveClient._make_request` over a finite trace of HTTP
outcomes: the total-request counter is incremented on entry; 429 recurses
into `_make_request` (incrementing again), 503 retries once through a bare
`session.get` (no further increment) and returns whatever comes back, any
other non-200 status yields `None`, timeouts and connection errors yield
`None`.  An exhausted trace is read as a connection error.  No branch
touches `failed_requests`. -/
def makeRequest : List HttpOutcome → ClientState → Option (Nat × String) × ClientState
  | outs, s =>
    let s1 : ClientState := { s with totalRequests := s.totalRequests + 1 }
    match outs with
    | [] => (none, s1)
    | o :: rest =>
      match o with
      | .timeout => (none, s1)
      | .connError => (none, s1)
      | .status code body =>
        if code = 429 then makeRequest rest s1
        else if code = 503 then
          match rest with
          | [] => (none, s1)
          | .status c b :: _ => (some (c, b), s1)
          | .timeout :: _ => (none, s1)
          | .connError :: _ => (none, s1)
        else if code = 200 then (some (code, body), s1)
        else (none, s1)

/-- `InternetArchiveClient.download_text`, counter-relevant structure: with
no Wayback URL nothing is requested; otherwise `_make_request` runs on the
outcome trace and only a 200 response yields content, which passes through
HTML text extraction, the English heuristic and cleaning — that content
pipeline is abstracted as the `render` parameter, since it does not touch
the client state. -/
def download_text (waybackUrl : Option String) (outs : List HttpOutcome)
    (render : String → String) (s : ClientState) : String × ClientState :=
  match waybackUrl with
  | none => ("", s)
  | some _ =>
    match makeRequest outs s with
    | (some (code, body), s1) =>
      if code = 200 then (render body, s1) else ("", s1)
    | (none, s1) => ("", s1)

/-- `InternetArchiveClient.get_stats` success rate, in percent scaled by
`max(total, 1)` exactly (rational to avoid float rounding). -/
def getStatsSuccessRate (s : ClientState) : ℚ :=
  ((s.totalRequests : ℚ) - (s.failedRequests : ℚ)) / (max s.totalRequests 1 : ℚ) * 100

/-- The per-domain loop of `InternetArchiveClient.search_items`: each
element of `domainResults` is the outcome of `_search_domain_pages` for one
domain (`none` when that domain raised, which increments the failure
counter and continues).  After extending the accumulator the loop truncates
to `max_results` and stops as soon as the accumulated list reaches the cap. -/
def searchItemsLoop (maxResults : Nat) :
    List (Option (List Document)) → List Document → List Document
  | [], acc => acc
  | r :: rs, acc =>
    match r with
    | none => searchItemsLoop maxResults rs acc
    | some ds =>
      let acc2 := acc ++ ds
      if maxResults ≤ acc2.length then acc2.take maxResults
      else searchItemsLoop maxResults rs acc2

/-- `InternetArchiveClient.search_items` over the per-domain outcomes. -/
def search_items (domainResults : List (Option (List Document)))
    (maxResults : Nat) : List Document :=
  searchItemsLoop maxResults domainResults []

/-- The `summary` block of `SessionMemory.get_summary` (elapsed wall-clock
time is real time and is left out of the model). -/
structure SessionSummary where
  total_documents : Nat
  documents_with_content : Nat
  total_unique_terms : Nat
  top_terms_count : Nat
deriving DecidableEq

/-- The populated result structure built by
`HistoricalTermAnalyzer._generate_results` (the wall-clock timestamp and
version tag of `analysis_metadata` carry no analyzed content). -/
structure AnalysisResults where
  summary : SessionSummary
  documents : List Document
  frequencies : List (String × Nat)
  top_terms : List (String × Nat)
  metadata_total_terms_analyzed : Nat
  metadata_documents_processed : Nat
deriving DecidableEq

/-- What `analyze_period` hands back to the caller: a populated result
structure or the error dictionary form. -/
inductive AnalyzeOutcome where
  | results (r : AnalysisResults)
  | error (msg : String)
deriving DecidableEq

/-- `HistoricalTermAnalyzer._generate_results` over the session memory
contents. -/
def generateResults (docs : List Document) (freqs : List (String × Nat))
    (top : List (String × Nat)) : AnalysisResults :=
  let withContent := (docs.filter (fun d => d.text_content ≠ "")).length
  { summary :=
      { total_documents := docs.length
        documents_with_content := withContent
        total_unique_terms := freqs.length
        top_terms_count := top.length }
    documents := docs
    frequencies := freqs
    top_terms := top
    metadata_total_terms_analyzed := freqs.length
    metadata_documents_processed := withContent }

/-- `HistoricalTermAnalyzer.analyze_period` control flow.  The querying,
download and frequency phases perform network and thread-pool work, so each
is a parameter recording its outcome: a value, or the exception it raised
(as its message).  The body mirrors the `try` block: an empty candidate
list returns the error dictionary directly; any raising phase falls through
to the `except` handler, which also returns the error dictionary. -/
def analyze_period (searchPhase : Except String (List Document))
    (downloadPhase : List Document → Except String (List Document))
    (freqPhase : List Document → Except String (List (String × Nat))) :
    AnalyzeOutcome :=
  let body : Except String AnalyzeOutcome := do
    let docs ← searchPhase
    if docs.isEmpty then
      return AnalyzeOutcome.error "No se encontraron documentos"
    else
      let docs2 ← downloadPhase docs
      let freqs ← freqPhase docs2
      let top := get_top_terms freqs 100
      return AnalyzeOutcome.results (generateResults docs2 freqs top)
  match body with
  | .ok r => r
  | .error e => AnalyzeOutcome.error e

/-- A term list is filtered: no stop word, no token under 2 characters. -/
def TermListOK (ts : List String) : Prop :=
  ∀ w ∈ ts, w ∉ STOP_WORDS ∧ 2 ≤ w.length

/-- Every term list held by the cache is filtered. -/
def CacheOK (s : ProcessorState) : Prop :=
  ∀ k ts, (k, ts) ∈ s.termCache → TermListOK ts

/-- A 1000-character block of `a`, a cache-key collision prefix. -/
def aBlock : List Char := List.replicate 1000 'a'

/-- A text of 1006 characters ending in `hello`. -/
def tHello : String := String.mk (aBlock ++ [' ', 'h', 'e', 'l', 'l', 'o'])

/-- A text with the same first 1000 characters ending in `world`. -/
def tWorld : String := String.mk (aBlock ++ [' ', 'w', 'o', 'r', 'l', 'd'])

/-- A document carrying `tHello` as its non-empty text content. -/
def dHello : Document := ⟨"doc-hello", tHello⟩

/-- A document carrying `tWorld` as its non-empty text content. -/
def dWorld : Document := ⟨"doc-world", tWorld⟩

/-- A padded text: 47 characters of English tokens plus 10 trailing
spaces, 57 characters in all. -/
def padText : String := "is is is is is is is is is is is is is is is is          "

/-! ## Theorems -/

/-- A successful lookup retrieves a value stored in the association list. -/
theorem lookup_mem_value {cache : List (String × List String)} {key : String}
    {ts : List String} (h : cache.lookup key = some ts) : ∃ k, (k, ts) ∈ cache := by
  induction cache with
  | nil => simp [List.lookup] at h
  | cons p rest ih =>
    obtain ⟨k, v⟩ := p
    rw [List.lookup] at h
    cases hbeq : key == k with
    | true =>
      rw [hbeq] at h
      dsimp only at h
      obtain rfl : v = ts := by injection h
      exact ⟨k, List.mem_cons_self _ _⟩
    | false =>
      rw [hbeq] at h
      obtain ⟨k2, hk2⟩ := ih h
      exact ⟨k2, List.mem_cons_of_mem _ hk2⟩

/-- The pure extraction output is filtered. -/
theorem extractTermsPure_ok (text : String) : TermListOK (extractTermsPure text) := by
  intro w hw
  unfold extractTermsPure at hw
  have hp := List.of_mem_filter hw
  simp only [Bool.and_eq_true, Bool.not_eq_true', decide_eq_true_eq] at hp
  refine ⟨?_, hp.2⟩
  intro hmem
  have : STOP_WORDS.contains w = true := List.elem_eq_true_of_mem hmem
  rw [this] at hp
  exact Bool.false_ne_true hp.1.symm

/-- C2: for every text input and every reachable cache state, the sequence
returned by `extract_terms` contains no token of the stop-word set and no
token shorter than the minimum length of 2 — the fresh cache satisfies the
cache invariant, and every call preserves it while returning a filtered
list (a cache hit returns a list that was itself a filtered extraction). -/
theorem C2_extract_terms_filtered :
    CacheOK initProcessor
  ∧ (∀ (text : String) (s : ProcessorState), CacheOK s →
       TermListOK (extract_terms text s).1 ∧ CacheOK (extract_terms text s).2) := by
  constructor
  · intro k ts h
    simp [initProcessor] at h
  · intro text s hs
    unfold extract_terms
    split
    · exact ⟨by intro w hw; simp at hw, hs⟩
    · cases hl : List.lookup (String.mk (text.data.take 1000)) s.termCache with
      | some terms =>
        refine ⟨?_, hs⟩
        obtain ⟨k, hk⟩ := lookup_mem_value hl
        exact hs k terms hk
      | none =>
        dsimp only
        split
        · refine ⟨extractTermsPure_ok text, ?_⟩
          intro k ts hk
          rcases List.mem_cons.mp hk with heq | hmem
          · cases heq
            exact extractTermsPure_ok text
          · exact hs k ts hmem
        · exact ⟨extractTermsPure_ok text, hs⟩

/-- Witness for C2 at a concrete call on the fresh processor. -/
theorem C2_extract_terms_filtered_witness :
    TermListOK (extract_terms "the quick fox" initProcessor).1 :=
  (C2_extract_terms_filtered.2 "the quick fox" initProcessor
    C2_extract_terms_filtered.1).1

/-- C4 (amended): `extract_terms` equals the pure extraction on a fresh
processor and on every cache miss; on a cache hit it returns the cached
list, which is the pure extraction of the earlier text that shares the
first-1000-character cache key — so the result can depend on previously
processed texts when keys collide. -/
theorem C4_extract_terms_cache_semantics :
    (∀ text : String, (extract_terms text initProcessor).1 = extractTermsPure text)
  ∧ (∀ (text : String) (s : ProcessorState), text ≠ "" →
       s.termCache.lookup (String.mk (text.data.take 1000)) = none →
       (extract_terms text s).1 = extractTermsPure text)
  ∧ (∀ (text : String) (s : ProcessorState) (ts : List String), text ≠ "" →
       s.termCache.lookup (String.mk (text.data.take 1000)) = some ts →
       (extract_terms text s).1 = ts) := by
  refine ⟨?_, ?_, ?_⟩
  · intro text
    unfold extract_terms
    split
    · next heq => rw [heq]; rfl
    · rfl
  · intro text s hne hl
    unfold extract_terms
    rw [if_neg hne, hl]
    dsimp only
    split <;> rfl
  · intro text s ts hne hl
    unfold extract_terms
    rw [if_neg hne, hl]

/-- Witness for C4's amended statement on the fresh processor. -/
theorem C4_extract_terms_cache_semantics_witness :
    (extract_terms "alpha beta" ⟨[("k", ["v"])], 0, 0⟩).1 =
      extractTermsPure "alpha beta" :=
  C4_extract_terms_cache_semantics.2.1 "alpha beta" ⟨[("k", ["v"])], 0, 0⟩
    (by decide) (by decide)

set_option maxRecDepth 100000 in
/-- Counterexample for C4 as stated: `tHello` and `tWorld` agree on their
first 1000 characters but differ afterwards, so after processing `tHello`
the call on `tWorld` hits the cache and returns `tHello`'s terms — not what
a fresh processor returns for `tWorld`. -/
theorem C4_counterexample :
    (extract_terms tWorld (extract_terms tHello initProcessor).2).1 ≠
      (extract_terms tWorld initProcessor).1 := by
  decide

/-- C6 (amended): `validate_english_content` rejects text whose
whitespace-stripped length is under 50 characters, rejects text whose
first-1000-character sample yields fewer than 10 alphabetic word tokens,
and otherwise accepts exactly when the English-word ratio exceeds 1/10 and
the non-ASCII character ratio is below 1/10. -/
theorem C6_validate_english (text : String) :
    validate_english_content text = true ↔
      (50 ≤ (stripChars text.toList).length ∧
       10 ≤ (sampleTokens text).length ∧
       (1 : ℚ) / 10 < (englishCount text : ℚ) / ((sampleTokens text).length : ℚ) ∧
       (nonLatinCount text : ℚ) / ((englishSample text).length : ℚ) < 1 / 10) := by
  unfold validate_english_content
  by_cases h1 : (stripChars text.toList).length < 50
  · rw [if_pos h1]
    simp only [Bool.false_eq_true, false_iff]
    intro hc
    omega
  · rw [if_neg h1]
    by_cases h2 : (sampleTokens text).length < 10
    · rw [if_pos h2]
      simp only [Bool.false_eq_true, false_iff]
      intro hc
      omega
    · rw [if_neg h2]
      have h50 : 50 ≤ (stripChars text.toList).length := Nat.le_of_not_lt h1
      have h10 : 10 ≤ (sampleTokens text).length := Nat.le_of_not_lt h2
      have hwpos : (0 : ℚ) < ((sampleTokens text).length : ℚ) := by
        have : 0 < (sampleTokens text).length := by omega
        exact_mod_cast this
      have hspos : 0 < (englishSample text).length := by
        by_contra hc
        have hnil : englishSample text = [] :=
          List.length_eq_zero.mp (by omega)
        have hst : sampleTokens text = [] := by
          unfold sampleTokens findWords1 wordRuns
          rw [hnil]
          rfl
        have hlen0 : (sampleTokens text).length = 0 := by rw [hst]; rfl
        omega
      have hspos2 : (0 : ℚ) < ((englishSample text).length : ℚ) := by
        exact_mod_cast hspos
      rw [Bool.and_eq_true, decide_eq_true_eq, decide_eq_true_eq]
      constructor
      · rintro ⟨hA, hB⟩
        refine ⟨h50, h10, ?_, ?_⟩
        · rw [div_lt_div_iff (by norm_num) hwpos, one_mul]
          have : ((sampleTokens text).length : ℚ) < (10 : ℚ) * (englishCount text : ℚ) := by
            exact_mod_cast hA
          linarith
        · rw [div_lt_div_iff hspos2 (by norm_num), one_mul]
          have : (10 : ℚ) * (nonLatinCount text : ℚ) < ((englishSample text).length : ℚ) := by
            exact_mod_cast hB
          linarith
      · rintro ⟨-, -, hQ1, hQ2⟩
        rw [div_lt_div_iff (by norm_num) hwpos, one_mul] at hQ1
        rw [div_lt_div_iff hspos2 (by norm_num), one_mul] at hQ2
        constructor
        · have : ((sampleTokens text).length : ℚ) < (10 : ℚ) * (englishCount text : ℚ) := by
            linarith
          exact_mod_cast this
        · have : (10 : ℚ) * (nonLatinCount text : ℚ) < ((englishSample text).length : ℚ) := by
            linarith
          exact_mod_cast this

/-- Counterexample for C6 as stated: `padText` is 57 characters long (so
not "shorter than 50 characters"), its sample has 16 alphabetic tokens and
both ratio tests pass, yet the validator rejects it — the length test is on
the whitespace-stripped text (47 characters), not on the text itself. -/
theorem C6_counterexample :
    ¬ padText.length < 50 ∧
    ¬ (sampleTokens padText).length < 10 ∧
    (sampleTokens padText).length < 10 * englishCount padText ∧
    10 * nonLatinCount padText < (englishSample padText).length ∧
    validate_english_content padText = false := by
  decide

/-- Counting the pure extractions is invariant under dropping documents
with empty text: an empty text extracts no terms. -/
theorem pureBatchFreq_eq_seq (docs : List Document) (t : String) :
    pureBatchFreq docs t = pureSeqFreq docs t := by
  unfold pureBatchFreq pureSeqFreq countTerms
  induction docs with
  | nil => rfl
  | cons d ds ih =>
    rw [List.flatMap_cons, List.count_append]
    by_cases hd : d.text_content = ""
    · have hf : extractTermsPure d.text_content = [] := by rw [hd]; rfl
      rw [List.filter_cons, if_neg (by simp [hd]), hf, List.count_nil, Nat.zero_add]
      exact ih
    · rw [List.filter_cons, if_pos (by simp [hd]), List.flatMap_cons,
        List.count_append, ih]

/-- Merging per-batch pure counts equals counting the concatenation. -/
theorem mergeFreq_flatten (bs : List (List Document)) (t : String) :
    mergeFreqMaps (bs.map pureBatchFreq) t =
      pureSeqFreq bs.flatten t := by
  induction bs with
  | nil => rfl
  | cons b rest ih =>
    unfold mergeFreqMaps at ih ⊢
    simp only [List.map_cons, List.sum_cons]
    rw [pureBatchFreq_eq_seq b t, ih]
    unfold pureSeqFreq countTerms
    simp [List.count_append]

/-- The chunks of `chunkAux` concatenate back to the input. -/
theorem chunkAux_flatten (n : Nat) (l : List Document) :
    ∀ (acc : List Document) (k : Nat),
      (chunkAux n l acc k).flatten = acc.reverse ++ l := by
  induction l with
  | nil =>
    intro acc k
    unfold chunkAux
    split
    · next h => simp [List.isEmpty_iff.mp h]
    · simp
  | cons x xs ih =>
    intro acc k
    unfold chunkAux
    split
    · simp [ih]
    · simp [ih]

/-- The batches of the parallel mode partition the document list. -/
theorem makeBatches_flatten (w : Nat) (docs : List Document) :
    (makeBatches w docs).flatten = docs := by
  unfold makeBatches chunkList
  rw [chunkAux_flatten]
  rfl

/-- A successful lookup yields the entry stored under the looked-up key. -/
theorem lookup_pair_mem {cache : List (String × List String)} {key : String}
    {ts : List String} (h : cache.lookup key = some ts) : (key, ts) ∈ cache := by
  induction cache with
  | nil => simp [List.lookup] at h
  | cons p rest ih =>
    obtain ⟨k, v⟩ := p
    rw [List.lookup] at h
    cases hbeq : key == k with
    | true =>
      rw [hbeq] at h
      dsimp only at h
      obtain rfl : v = ts := by injection h
      have hk : key = k := eq_of_beq hbeq
      subst hk
      exact List.mem_cons_self _ _
    | false =>
      rw [hbeq] at h
      exact List.mem_cons_of_mem _ (ih h)

/-- Under key coherence, `extract_terms` on a pure cache returns the pure
extraction of its argument and keeps the cache pure. -/
theorem extract_terms_coherent (texts : List String) (hcoh : KeyCoherent texts)
    (text : String) (htext : text ∈ texts) (s : ProcessorState)
    (hs : CachePureUnder texts s) :
    (extract_terms text s).1 = extractTermsPure text ∧
    CachePureUnder texts (extract_terms text s).2 := by
  unfold extract_terms
  split
  · next heq => exact ⟨by rw [heq]; rfl, hs⟩
  · next hne =>
    cases hl : List.lookup (String.mk (text.data.take 1000)) s.termCache with
    | some terms =>
      refine ⟨?_, hs⟩
      obtain ⟨t2, ht2, hne2, hkey2, hpure2⟩ := hs _ _ (lookup_pair_mem hl)
      have hkk : cacheKeyOf t2 = cacheKeyOf text := hkey2
      have hpp := hcoh t2 ht2 text htext hkk
      dsimp only
      rw [← hpp, hpure2]
    | none =>
      dsimp only
      split
      · refine ⟨rfl, ?_⟩
        intro k ts hk
        rcases List.mem_cons.mp hk with heq2 | hmem
        · rw [Prod.mk.injEq] at heq2
          obtain ⟨hk1, hk2⟩ := heq2
          exact ⟨text, htext, hne, by rw [hk1]; rfl, hk2.symm⟩
        · exact hs k ts hmem
      · exact ⟨rfl, hs⟩

/-- Under key coherence, one batch extracts exactly the pure term
concatenation of its documents with content, preserving cache purity. -/
theorem batchTermsCached_coherent (texts : List String) (hcoh : KeyCoherent texts) :
    ∀ (b : List Document), (∀ d ∈ b, d.text_content ∈ texts) →
    ∀ s : ProcessorState, CachePureUnder texts s →
      (batchTermsCached b s).1 =
        (b.filter (fun d => d.text_content ≠ "")).flatMap
          (fun d => extractTermsPure d.text_content) ∧
      CachePureUnder texts (batchTermsCached b s).2 := by
  intro b
  induction b with
  | nil => intro _ s hs; exact ⟨rfl, hs⟩
  | cons d ds ih =>
    intro hb s hs
    have hd : d.text_content ∈ texts := hb d (List.mem_cons_self d ds)
    have hds : ∀ x ∈ ds, x.text_content ∈ texts :=
      fun x hx => hb x (List.mem_cons_of_mem d hx)
    by_cases hdc : d.text_content = ""
    · unfold batchTermsCached
      rw [if_neg (by simp [hdc]), List.filter_cons, if_neg (by simp [hdc])]
      exact ih hds s hs
    · have h1 := extract_terms_coherent texts hcoh d.text_content hd s hs
      have h2 := ih hds (extract_terms d.text_content s).2 h1.2
      unfold batchTermsCached
      rw [if_pos hdc]
      dsimp only
      constructor
      · rw [List.filter_cons, if_pos (by simp [hdc]), List.flatMap_cons, h1.1, h2.1]
      · exact h2.2

/-- Under key coherence, the sequential mode extracts exactly the pure term
concatenation of the documents, preserving cache purity. -/
theorem seqTermsCached_coherent (texts : List String) (hcoh : KeyCoherent texts) :
    ∀ (docs : List Document), (∀ d ∈ docs, d.text_content ∈ texts) →
    ∀ s : ProcessorState, CachePureUnder texts s →
      (seqTermsCached docs s).1 =
        docs.flatMap (fun d => extractTermsPure d.text_content) ∧
      CachePureUnder texts (seqTermsCached docs s).2 := by
  intro docs
  induction docs with
  | nil => intro _ s hs; exact ⟨rfl, hs⟩
  | cons d ds ih =>
    intro hb s hs
    have hd : d.text_content ∈ texts := hb d (List.mem_cons_self d ds)
    have hds : ∀ x ∈ ds, x.text_content ∈ texts :=
      fun x hx => hb x (List.mem_cons_of_mem d hx)
    have h1 := extract_terms_coherent texts hcoh d.text_content hd s hs
    have h2 := ih hds (extract_terms d.text_content s).2 h1.2
    unfold seqTermsCached
    dsimp only
    constructor
    · rw [List.flatMap_cons, h1.1, h2.1]
    · exact h2.2

/-- Under key coherence, any serially scheduled pool execution computes the
merge of the pure per-batch counts, preserving cache purity. -/
theorem parallelRunCached_coherent (texts : List String) (hcoh : KeyCoherent texts) :
    ∀ (order : List (List Document)),
      (∀ b ∈ order, ∀ d ∈ b, d.text_content ∈ texts) →
    ∀ s : ProcessorState, CachePureUnder texts s →
      (∀ t, (parallelRunCached order s).1 t =
        mergeFreqMaps (order.map pureBatchFreq) t) ∧
      CachePureUnder texts (parallelRunCached order s).2 := by
  intro order
  induction order with
  | nil => intro _ s hs; exact ⟨fun t => rfl, hs⟩
  | cons b bs ih =>
    intro hord s hs
    have hbtexts : ∀ d ∈ b, d.text_content ∈ texts := hord b (List.mem_cons_self b bs)
    have hrest : ∀ x ∈ bs, ∀ d ∈ x, d.text_content ∈ texts :=
      fun x hx => hord x (List.mem_cons_of_mem b hx)
    have h1 := batchTermsCached_coherent texts hcoh b hbtexts s hs
    have h2 := ih hrest (batchTermsCached b s).2 h1.2
    constructor
    · intro t
      unfold parallelRunCached processDocumentBatchRun
      dsimp only
      rw [h1.1, h2.1 t]
      unfold mergeFreqMaps pureBatchFreq
      simp only [List.map_cons, List.sum_cons]
    · exact h2.2

set_option maxRecDepth 100000 in
/-- Counterexample for C1 as stated: `dHello` and `dWorld` both have
non-empty text content and share their first 1000 characters.  The code
partitions them into the batches `[[dHello], [dWorld]]`; a legal pool
execution runs the second batch first, and the shared term cache then
serves the lookup for `dHello` with the terms of `dWorld`, so the merged parallel
mapping counts `world` twice and `hello` never — while the sequential mode
on a fresh processor (itself hitting the cache on `dWorld`) counts `hello`
twice and `world` never.  The two mappings differ, refuting the claimed
equality of parallel and sequential aggregation. -/
theorem C1_counterexample :
    makeBatches 2 [dHello, dWorld] = [[dHello], [dWorld]] ∧
    (parallelRunCached [[dWorld], [dHello]] initProcessor).1 "world" = 2 ∧
    (parallelRunCached [[dWorld], [dHello]] initProcessor).1 "hello" = 0 ∧
    (calcFreqSequentialRun [dHello, dWorld] initProcessor).1 "world" = 0 ∧
    (calcFreqSequentialRun [dHello, dWorld] initProcessor).1 "hello" = 2 := by
  decide

/-- C1 (amended): aggregation is invariant under partitioning whenever the
document texts are key-coherent (no two texts share a first-1000-character
cache key with different extracted terms — in particular whenever no two
distinct texts agree on their first 1000 characters): starting from a fresh
processor, every serially scheduled execution of the parallel mode over any
partition of the documents — including the near-equal batches the code forms — and
any batch order yields, term for term, exactly the mapping of the sequential
mode.  Without key coherence the two modes can disagree
(`C1_counterexample`). -/
theorem C1_parallel_sequential_coherent :
    (∀ (docs : List Document) (batches order : List (List Document)),
        KeyCoherent (docs.map (fun d => d.text_content)) →
        batches.flatten = docs → order.Perm batches →
        ∀ t, (parallelRunCached order initProcessor).1 t =
             (calcFreqSequentialRun docs initProcessor).1 t)
  ∧ (∀ (w : Nat) (docs : List Document) (order : List (List Document)),
        KeyCoherent (docs.map (fun d => d.text_content)) →
        order.Perm (makeBatches w docs) →
        ∀ t, (parallelRunCached order initProcessor).1 t =
             (calcFreqSequentialRun docs initProcessor).1 t) := by
  have main : ∀ (docs : List Document) (batches order : List (List Document)),
      KeyCoherent (docs.map (fun d => d.text_content)) →
      batches.flatten = docs → order.Perm batches →
      ∀ t, (parallelRunCached order initProcessor).1 t =
           (calcFreqSequentialRun docs initProcessor).1 t := by
    intro docs batches order hcoh hflat hperm t
    have hinit : CachePureUnder (docs.map (fun d => d.text_content)) initProcessor := by
      intro k ts h
      simp [initProcessor] at h
    have hdocs : ∀ d ∈ docs, d.text_content ∈ docs.map (fun d => d.text_content) :=
      fun d hd => List.mem_map_of_mem _ hd
    have hord : ∀ b ∈ order, ∀ d ∈ b,
        d.text_content ∈ docs.map (fun d => d.text_content) := by
      intro b hb d hd
      have hbb : b ∈ batches := hperm.mem_iff.mp hb
      have hdd : d ∈ batches.flatten := List.mem_flatten.mpr ⟨b, hbb, hd⟩
      rw [hflat] at hdd
      exact hdocs d hdd
    have hpar := parallelRunCached_coherent _ hcoh order hord initProcessor hinit
    have hseq := seqTermsCached_coherent _ hcoh docs hdocs initProcessor hinit
    rw [hpar.1 t]
    have hmerge : mergeFreqMaps (order.map pureBatchFreq) t =
        mergeFreqMaps (batches.map pureBatchFreq) t := by
      unfold mergeFreqMaps
      exact List.Perm.sum_eq ((hperm.map pureBatchFreq).map (fun m => m t))
    rw [hmerge, mergeFreq_flatten batches t, hflat]
    unfold calcFreqSequentialRun
    dsimp only
    rw [hseq.1]
    rfl
  exact ⟨main, fun w docs order hcoh hperm t =>
    main docs (makeBatches w docs) order hcoh (makeBatches_flatten w docs) hperm t⟩

/-- Witness for the amended C1 at two key-coherent documents: a swapped
batch schedule for the general partition clause, and the batches the code
forms for the second clause. -/
theorem C1_parallel_sequential_coherent_witness :
    (parallelRunCached [[(⟨"b", "computer tech"⟩ : Document)],
        [⟨"a", "computer science"⟩]] initProcessor).1 "computer" =
      (calcFreqSequentialRun [⟨"a", "computer science"⟩, ⟨"b", "computer tech"⟩]
        initProcessor).1 "computer" ∧
    (parallelRunCached
        (makeBatches 2 [(⟨"a", "computer science"⟩ : Document), ⟨"b", "computer tech"⟩])
        initProcessor).1 "computer" =
      (calcFreqSequentialRun [⟨"a", "computer science"⟩, ⟨"b", "computer tech"⟩]
        initProcessor).1 "computer" :=
  ⟨C1_parallel_sequential_coherent.1
     ([⟨"a", "computer science"⟩, ⟨"b", "computer tech"⟩] : List Document)
     ([[⟨"a", "computer science"⟩], [⟨"b", "computer tech"⟩]] : List (List Document))
     ([[⟨"b", "computer tech"⟩], [⟨"a", "computer science"⟩]] : List (List Document))
     (by unfold KeyCoherent cacheKeyOf; decide) rfl
     (List.Perm.swap ([⟨"a", "computer science"⟩] : List Document)
       [⟨"b", "computer tech"⟩] [])
     "computer",
   C1_parallel_sequential_coherent.2 2
     ([⟨"a", "computer science"⟩, ⟨"b", "computer tech"⟩] : List Document)
     (makeBatches 2 [⟨"a", "computer science"⟩, ⟨"b", "computer tech"⟩])
     (by unfold KeyCoherent cacheKeyOf; decide) (List.Perm.refl _) "computer"⟩

/-- C9: the adjacent string literals `'not'` and `'page'` in the stop-word
set are joined by implicit concatenation, so the set contains the single
element `notpage` and neither `not` nor `page`; consequently
`extract_terms` does not filter these two tokens and
`extract_terms("not page")` returns `["not", "page"]`. -/
theorem C9_notpage_concatenation :
    "notpage" ∈ STOP_WORDS ∧ "not" ∉ STOP_WORDS ∧ "page" ∉ STOP_WORDS ∧
    (extract_terms "not page" initProcessor).1 = ["not", "page"] := by
  decide

/-- C10: the term cache never holds more than 500 entries: the initial
cache is within the bound, every call to `extract_terms` preserves the
bound (an entry is inserted only when the size is strictly below 500), and
no entry is ever evicted. -/
theorem C10_cache_bound :
    initProcessor.termCache.length ≤ 500
  ∧ (∀ (text : String) (s : ProcessorState), s.termCache.length ≤ 500 →
       ((extract_terms text s).2).termCache.length ≤ 500)
  ∧ (∀ (text : String) (s : ProcessorState) (e : String × List String),
       e ∈ s.termCache → e ∈ ((extract_terms text s).2).termCache) := by
  refine ⟨by decide, ?_, ?_⟩
  · intro text s h
    unfold extract_terms
    split
    · exact h
    · cases hl : List.lookup (String.mk (text.data.take 1000)) s.termCache with
      | some terms => exact h
      | none =>
        dsimp only
        split
        · next hlt => simp only [List.length_cons]; omega
        · exact h
  · intro text s e he
    unfold extract_terms
    split
    · exact he
    · cases hl : List.lookup (String.mk (text.data.take 1000)) s.termCache with
      | some terms => exact he
      | none =>
        dsimp only
        split
        · exact List.mem_cons_of_mem _ he
        · exact he

/-- Witness for C10 at a concrete state. -/
theorem C10_cache_bound_witness :
    ((extract_terms "hello" initProcessor).2).termCache.length ≤ 500 ∧
    ("k", ["v"]) ∈ ((extract_terms "hello" ⟨[("k", ["v"])], 0, 0⟩).2).termCache :=
  ⟨C10_cache_bound.2.1 "hello" initProcessor (by decide),
   C10_cache_bound.2.2 "hello" ⟨[("k", ["v"])], 0, 0⟩ ("k", ["v"]) (by decide)⟩

/-- Insertion keeps the list a permutation of pushing in front. -/
theorem insertByCountDesc_perm (x : String × Nat) (l : List (String × Nat)) :
    (insertByCountDesc x l).Perm (x :: l) := by
  induction l with
  | nil => exact List.Perm.refl _
  | cons y ys ih =>
    unfold insertByCountDesc
    split
    · exact List.Perm.refl _
    · exact (ih.cons y).trans (List.Perm.swap x y ys)

/-- The stable sort permutes its input. -/
theorem sortByCountDesc_perm (l : List (String × Nat)) :
    (sortByCountDesc l).Perm l := by
  induction l with
  | nil => exact List.Perm.refl _
  | cons x xs ih =>
    exact (insertByCountDesc_perm x (sortByCountDesc xs)).trans (ih.cons x)

/-- Insertion preserves descending order by count. -/
theorem insertByCountDesc_pairwise (x : String × Nat) (l : List (String × Nat))
    (h : l.Pairwise (fun a b => b.2 ≤ a.2)) :
    (insertByCountDesc x l).Pairwise (fun a b => b.2 ≤ a.2) := by
  induction l with
  | nil => simp [insertByCountDesc]
  | cons y ys ih =>
    rw [List.pairwise_cons] at h
    unfold insertByCountDesc
    split
    · next hyx =>
      rw [List.pairwise_cons]
      refine ⟨?_, List.pairwise_cons.mpr h⟩
      intro z hz
      rcases List.mem_cons.mp hz with rfl | hmem
      · exact hyx
      · exact Nat.le_trans (h.1 z hmem) hyx
    · next hyx =>
      rw [List.pairwise_cons]
      refine ⟨?_, ih h.2⟩
      intro z hz
      have hz2 := (insertByCountDesc_perm x ys).mem_iff.mp hz
      rcases List.mem_cons.mp hz2 with rfl | hmem
      · exact Nat.le_of_lt (Nat.lt_of_not_le hyx)
      · exact h.1 z hmem

/-- The stable sort output is descending by count. -/
theorem sortByCountDesc_pairwise (l : List (String × Nat)) :
    (sortByCountDesc l).Pairwise (fun a b => b.2 ≤ a.2) := by
  induction l with
  | nil => simp [sortByCountDesc]
  | cons x xs ih => exact insertByCountDesc_pairwise x (sortByCountDesc xs) ih

/-- C3 (amended): `get_top_terms` filters out exactly the terms shorter
than 3 characters, the purely numeric terms and the terms occurring only
once; the result is descending by count, every filtered-in entry is
selected when `top_n` covers the input, and the concrete scenario of the
claim holds. -/
theorem C3_get_top_terms :
    (∀ (f : List (String × Nat)) (n : Nat) (p : String × Nat),
        p ∈ get_top_terms f n →
          p ∈ f ∧ 3 ≤ p.1.length ∧ pyIsDigit p.1 = false ∧ 1 < p.2)
  ∧ (∀ (f : List (String × Nat)) (n : Nat),
        (get_top_terms f n).Pairwise (fun a b => b.2 ≤ a.2))
  ∧ (∀ (f : List (String × Nat)) (n : Nat) (p : String × Nat),
        p ∈ f → 3 ≤ p.1.length → pyIsDigit p.1 = false → 1 < p.2 →
        f.length ≤ n → p ∈ get_top_terms f n)
  ∧ get_top_terms
      [("computer", 10), ("technology", 8), ("science", 6),
       ("programming", 4), ("software", 2)] 3 =
      [("computer", 10), ("technology", 8), ("science", 6)] := by
  refine ⟨?_, ?_, ?_, by decide⟩
  · intro f n p hp
    unfold get_top_terms at hp
    have hsorted := List.take_subset n _ hp
    have hfil := (sortByCountDesc_perm _).mem_iff.mp hsorted
    have hmem := List.mem_of_mem_filter hfil
    have hpred := List.of_mem_filter hfil
    simp only [Bool.and_eq_true, Bool.not_eq_true', decide_eq_true_eq] at hpred
    exact ⟨hmem, hpred.1.1, hpred.1.2, hpred.2⟩
  · intro f n
    unfold get_top_terms
    exact (sortByCountDesc_pairwise _).sublist (List.take_sublist n _)
  · intro f n p hp hlen hdig hcnt hn
    unfold get_top_terms
    have hfil : p ∈ f.filter
        (fun p => decide (3 ≤ p.1.length) && !(pyIsDigit p.1) && decide (1 < p.2)) := by
      refine List.mem_filter.mpr ⟨hp, ?_⟩
      simp only [Bool.and_eq_true, Bool.not_eq_true', decide_eq_true_eq]
      exact ⟨⟨hlen, hdig⟩, hcnt⟩
    have hsorted := (sortByCountDesc_perm _).mem_iff.mpr hfil
    have hlenle : (sortByCountDesc (f.filter
        (fun p => decide (3 ≤ p.1.length) && !(pyIsDigit p.1) && decide (1 < p.2)))).length ≤ n :=
      Nat.le_trans (Nat.le_trans (sortByCountDesc_perm _).length_eq.le
        (f.length_filter_le _)) hn
    rw [List.take_of_length_le hlenle]
    exact hsorted

/-- Witness for C3's selection clause at a concrete frequency table. -/
theorem C3_get_top_terms_witness :
    ("science", 6) ∈ get_top_terms [("computer", 10), ("science", 6)] 2 :=
  C3_get_top_terms.2.2.1 [("computer", 10), ("science", 6)] 2 ("science", 6)
    (by decide) (by decide) (by decide) (by decide) (by decide)

/-- Counterexample for C3 as stated: `ab` is non-numeric with count 5 > 1,
yet `get_top_terms` drops it (terms shorter than 3 characters are filtered
too), so it is not "eligible for selection". -/
theorem C3_counterexample :
    pyIsDigit "ab" = false ∧ (1 : Nat) < 5 ∧ get_top_terms [("ab", 5)] 3 = [] := by
  decide

/-- Invariant of the `search_items` domain loop: if the accumulator is
within the cap, the final list is within the cap. -/
theorem searchItemsLoop_length_le (m : Nat) :
    ∀ (rs : List (Option (List Document))) (acc : List Document),
      acc.length ≤ m → (searchItemsLoop m rs acc).length ≤ m := by
  intro rs
  induction rs with
  | nil => intro acc h; simpa [searchItemsLoop] using h
  | cons r rest ih =>
    intro acc h
    cases r with
    | none => simpa [searchItemsLoop] using ih acc h
    | some ds =>
      simp only [searchItemsLoop]
      split
      · simp [List.length_take]
      · next hlt => exact ih _ (Nat.le_of_not_le (fun hc => hlt hc))

/-- C7: the candidate search returns at most `max_results` documents, and
once the accumulated list reaches the cap it truncates and stops without
querying the remaining domains (the result no longer depends on them). -/
theorem C7_search_items_cap :
    (∀ (rs : List (Option (List Document))) (m : Nat),
        (search_items rs m).length ≤ m)
  ∧ (∀ (m : Nat) (ds acc : List Document) (rest : List (Option (List Document))),
        m ≤ (acc ++ ds).length →
        searchItemsLoop m (some ds :: rest) acc = (acc ++ ds).take m) := by
  constructor
  · intro rs m
    exact searchItemsLoop_length_le m rs [] (by simp)
  · intro m ds acc rest h
    simp only [searchItemsLoop]
    exact if_pos h

/-- Witness for C7's early-stop clause at a concrete overshooting batch. -/
theorem C7_search_items_cap_witness :
    searchItemsLoop 1 [some [⟨"a", "x"⟩, ⟨"b", "y"⟩], some [⟨"c", "z"⟩]] [] =
      ([] ++ [⟨"a", "x"⟩, ⟨"b", "y"⟩] : List Document).take 1 :=
  C7_search_items_cap.2 1 [⟨"a", "x"⟩, ⟨"b", "y"⟩] []
    [some [⟨"c", "z"⟩]] (by decide)

/-- The request helper never touches the failure counter and always
increments the total-request counter at least once. -/
theorem makeRequest_counters :
    ∀ (outs : List HttpOutcome) (s : ClientState),
      (makeRequest outs s).2.failedRequests = s.failedRequests ∧
      s.totalRequests + 1 ≤ (makeRequest outs s).2.totalRequests := by
  intro outs
  induction outs with
  | nil => intro s; simp [makeRequest]
  | cons o rest ih =>
    intro s
    cases o with
    | timeout => simp [makeRequest]
    | connError => simp [makeRequest]
    | status code body =>
      by_cases h429 : code = 429
      · have h := ih { s with totalRequests := s.totalRequests + 1 }
        simp only [makeRequest, h429, if_pos rfl] at h ⊢
        exact ⟨h.1, Nat.le_trans (Nat.le_succ _) h.2⟩
      · by_cases h503 : code = 503
        · cases rest with
          | nil => simp [makeRequest, h429, h503]
          | cons o2 rest2 => cases o2 <;> simp [makeRequest, h429, h503]
        · by_cases h200 : code = 200 <;> simp [makeRequest, h429, h503, h200]

/-- C8 (amended): every fetch through `download_text` with a Wayback URL
increments the client's total-request counter (once per attempt, more under
429 retries), but no fetch outcome — success or failure — ever changes the
failure counter: `failed_requests` is incremented only by `search_items`
when a whole-domain search raises.  `get_stats` reports the success rate
over exactly these two counters. -/
theorem C8_download_counters :
    (∀ (outs : List HttpOutcome) (s : ClientState),
       (makeRequest outs s).2.failedRequests = s.failedRequests ∧
       s.totalRequests + 1 ≤ (makeRequest outs s).2.totalRequests)
  ∧ (∀ (url : String) (outs : List HttpOutcome) (render : String → String)
       (s : ClientState),
       (download_text (some url) outs render s).2.failedRequests = s.failedRequests ∧
       s.totalRequests + 1 ≤ (download_text (some url) outs render s).2.totalRequests)
  ∧ (∀ s : ClientState, getStatsSuccessRate s =
       ((s.totalRequests : ℚ) - (s.failedRequests : ℚ)) / (max s.totalRequests 1 : ℚ) * 100) := by
  refine ⟨makeRequest_counters, ?_, fun _ => rfl⟩
  intro url outs render s
  have h := makeRequest_counters outs s
  unfold download_text
  cases hm : makeRequest outs s with
  | mk resp s1 =>
    rw [hm] at h
    cases resp with
    | none => simpa using h
    | some p =>
      cases p with
      | mk code body =>
        have h1 := h.1
        have h2 := h.2
        dsimp only at h1 h2
        by_cases h200 : code = 200 <;> simp [h200, h1, h2]

/-- Witness for C8's amended statement at a concrete 429-then-200 trace. -/
theorem C8_download_counters_witness :
    (download_text (some "u") [HttpOutcome.status 429 "", HttpOutcome.status 200 "ok"]
        (fun b => b) ⟨0, 0⟩).2.failedRequests = 0 ∧
    (0 : Nat) + 1 ≤ (download_text (some "u")
        [HttpOutcome.status 429 "", HttpOutcome.status 200 "ok"]
        (fun b => b) ⟨0, 0⟩).2.totalRequests :=
  C8_download_counters.2.1 "u" [HttpOutcome.status 429 "", HttpOutcome.status 200 "ok"]
    (fun b => b) ⟨0, 0⟩

/-- Counterexample for C8 as stated: a failed fetch (404 response, and a
timeout) increments the total-request counter but leaves the failure
counter untouched, contradicting "every failed fetch increments the
client's failure counter". -/
theorem C8_counterexample :
    makeRequest [HttpOutcome.status 404 ""] ⟨0, 0⟩ = (none, ⟨1, 0⟩) ∧
    download_text (some "u") [HttpOutcome.timeout] (fun b => b) ⟨0, 0⟩ = ("", ⟨1, 0⟩) := by
  constructor
  · rfl
  · rfl

/-- C5: `analyze_period` never raises: every run ends in a populated result
structure or the error-dictionary form; an error message from any phase and
an empty candidate set after the querying phase both yield the error form,
and a fully successful run yields the populated result built by
`_generate_results`. -/
theorem C5_analyze_period_total :
    ∀ (sp : Except String (List Document))
      (dp : List Document → Except String (List Document))
      (fp : List Document → Except String (List (String × Nat))),
      ((∃ r, analyze_period sp dp fp = .results r) ∨
       (∃ msg, analyze_period sp dp fp = .error msg))
    ∧ (∀ msg, sp = .error msg → analyze_period sp dp fp = .error msg)
    ∧ (sp = .ok [] → analyze_period sp dp fp = .error "No se encontraron documentos")
    ∧ (∀ docs msg, sp = .ok docs → docs ≠ [] → dp docs = .error msg →
        analyze_period sp dp fp = .error msg)
    ∧ (∀ docs docs2 msg, sp = .ok docs → docs ≠ [] → dp docs = .ok docs2 →
        fp docs2 = .error msg → analyze_period sp dp fp = .error msg)
    ∧ (∀ docs docs2 freqs, sp = .ok docs → docs ≠ [] → dp docs = .ok docs2 →
        fp docs2 = .ok freqs →
        analyze_period sp dp fp =
          .results (generateResults docs2 freqs (get_top_terms freqs 100))) := by
  intro sp dp fp
  refine ⟨?_, ?_, ?_, ?_, ?_, ?_⟩
  · cases h : analyze_period sp dp fp with
    | results r => exact Or.inl ⟨r, rfl⟩
    | error msg => exact Or.inr ⟨msg, rfl⟩
  · intro msg h; subst h; rfl
  · intro h; subst h; rfl
  · intro docs msg h hne hdp
    subst h
    simp [analyze_period, bind, Except.bind, Functor.map, Except.map, pure,
      Except.pure, hne, hdp]
  · intro docs docs2 msg h hne hdp hfp
    subst h
    simp [analyze_period, bind, Except.bind, Functor.map, Except.map, pure,
      Except.pure, hne, hdp, hfp]
  · intro docs docs2 freqs h hne hdp hfp
    subst h
    simp [analyze_period, bind, Except.bind, Functor.map, Except.map, pure,
      Except.pure, hne, hdp, hfp]

/-- Witness for C5 at concrete phase outcomes. -/
theorem C5_analyze_period_total_witness :
    analyze_period (.ok [⟨"a", "x"⟩]) (fun d => .ok d)
        (fun _ => .ok [("computer", 2)]) =
      .results (generateResults [⟨"a", "x"⟩] [("computer", 2)]
        (get_top_terms [("computer", 2)] 100)) :=
  (C5_analyze_period_total (.ok [⟨"a", "x"⟩]) (fun d => .ok d)
      (fun _ => .ok [("computer", 2)])).2.2.2.2.2
    [⟨"a", "x"⟩] [⟨"a", "x"⟩] [("computer", 2)] rfl (by decide) rfl rfl

end HTA
